import Mathlib

/-!
Verification of the Extreme ERS login automata
(`netmiko/extreme/extreme_ers_ssh.py`).

The file shallowly embeds the two login handlers of the driver:

* `special_login_handler` of `ExtremeErsSSH` — the byte-oriented (SSH)
  automaton: a loop `while i <= 12` that reads a fragment, reacts to the
  `Ctrl-Y` / `sername` / `ssword` markers, and breaks after sending the
  password.
* `telnet_login` of `ExtremeErsTelnet` — the line-oriented (Telnet)
  automaton: a loop `while i <= max_loops` with `sent_user` / `sent_pass`
  guards, regex prompt recognizers, a post-loop fallback probe, and an
  `EOFError` handler that closes the connection and raises
  `NetmikoAuthenticationException`.

The channel is modelled as a list of read results (a fragment string, or an
end-of-stream event standing for `EOFError`); once the list is exhausted the
non-blocking `read_channel` keeps returning the empty string.  `time.sleep`
calls only stretch wall-clock time and are not modelled.  The observable
behaviour of a run is its ordered list of channel writes and connection
closes, the number of `read_channel` calls, and its outcome (returned
transcript, raised authentication error, or an uncaught `EOFError` from the
fallback read, which sits outside the `try` block in the source).
-/

namespace ExtremeErs

/-! ### Character classes and substring search

`re.search` in the source is only ever applied to five concrete patterns;
each is translated directly below. -/

/-- Python's `\s` class over the ASCII range: `[ \t\n\r\f\v]`. -/
def isPySpace (c : Char) : Bool :=
  c = ' ' || c = '\t' || c = '\n' || c = '\r' || c = '\x0c' || c = '\x0b'

/-- Case-sensitive test that `pat` occurs as a contiguous substring of `s`
(Python's `pat in s`). -/
def listContainsSub (pat : List Char) : List Char → Bool
  | [] => pat.isEmpty
  | c :: cs => pat.isPrefixOf (c :: cs) || listContainsSub pat cs

/-- `pat in s` on strings. -/
def containsSub (pat s : String) : Bool :=
  listContainsSub pat.toList s.toList

/-- Match `pat` case-insensitively at the head of `s`; return the remainder
on success. -/
def matchCaseFoldAt : List Char → List Char → Option (List Char)
  | [], rest => some rest
  | _ :: _, [] => none
  | p :: ps, c :: cs =>
      if p.toLower = c.toLower then matchCaseFoldAt ps cs else none

/-- Match, at the head of `s`, the word `"enter"`, then `\s*`, then `word`,
all letters case-insensitively.  Because `word` starts with a non-space
character, the greedy whitespace skip is equivalent to `\s*`. -/
def matchEnterThenWordAt (word s : List Char) : Bool :=
  match matchCaseFoldAt "enter".toList s with
  | none => false
  | some rest => (matchCaseFoldAt word (rest.dropWhile isPySpace)).isSome

/-- Search every start position for `enter\s*word` (case-insensitive). -/
def searchEnterThenWord (word : List Char) : List Char → Bool
  | [] => false
  | c :: cs => matchEnterThenWordAt word (c :: cs) || searchEnterThenWord word cs

/-- `re.search(r"[Ee]nter\s*[Uu]sername", s, flags=re.I)` as a Boolean. -/
def searchUsernamePat (s : String) : Bool :=
  searchEnterThenWord "username".toList s.toList

/-- `re.search(r"[Ee]nter\s*[Pp]assword", s, flags=re.I)` as a Boolean. -/
def searchPwdPat (s : String) : Bool :=
  searchEnterThenWord "password".toList s.toList

/-- Tail test for `t\s*$` in multiline mode, after the terminator character
has been consumed: `$` matches here (end of string), or some prefix of the
following whitespace run ends just before a `'\n'`.  Since `'\n'` is itself
whitespace, this is: the run reaches end of string, or contains `'\n'`. -/
def termTailMatch : List Char → Bool
  | [] => true
  | c :: cs => if c = '\n' then true else if isPySpace c then termTailMatch cs else false

/-- Match `t\s*$` (multiline) at the head of `s`. -/
def termMatchAt (t : Char) : List Char → Bool
  | [] => false
  | c :: cs => t = c && termTailMatch cs

/-- `re.search(t ++ r"\s*$", s, flags=re.M)` for a literal one-character
terminator `t` — the source instantiates `t` with `'#'` and `'>'`. -/
def searchTermPat (t : Char) : List Char → Bool
  | [] => false
  | c :: cs => termMatchAt t (c :: cs) || searchTermPat t cs

/-- `telnet_login`'s success test: primary terminator `r"#\s*$"` or
alternate terminator `r">\s*$"`, both with `flags=re.M`. -/
def promptTerminatorMatch (s : String) : Bool :=
  searchTermPat '#' s.toList || searchTermPat '>' s.toList

/-! ### Modelled transport constants

The base-connection class that supplies these attributes is not part of the
source tree; only the Extreme ERS driver is. -/

/-- `CTRL_Y = "\x19"` (module-level constant of the source file). -/
def CTRL_Y : String := "\x19"

/-- Modelled from the spec: the byte-oriented channel's line terminator
`self.RETURN`, described as a plain `\n`-style return sequence supplied by
the transport layer (the base connection class is not in the source tree). -/
def RETURN : String := "\n"

/-- Modelled from the spec: the line-oriented (Telnet) channel's terminator
`self.TELNET_RETURN`, described as a transport-specific return sequence
distinct from the plain `\n`-style one (the base connection class is not in
the source tree); netmiko's Telnet transport uses carriage-return line-feed. -/
def TELNET_RETURN : String := "\r\n"

/-! ### The byte-oriented (SSH) automaton: `ExtremeErsSSH.special_login_handler` -/

/-- Read result of one `read_channel()` poll on the SSH channel: the next
pending fragment, or `""` once the channel has nothing more to offer
(`read_channel` is non-blocking and returns the empty string when idle). -/
def readFrag : List String → String × List String
  | [] => ("", [])
  | s :: rest => (s, rest)

/-- One iteration of the `while i <= 12` body of `special_login_handler`,
evaluated on the fragment `out` just read: the ordered channel writes of the
iteration, and whether the `break` after sending the password fires.
`if output:` is Python truthiness, i.e. `out` is non-empty. -/
def sshCycle (username password : String) (out : String) : List String × Bool :=
  if out = "" then
    ([RETURN], false)
  else
    let ctrlW := if containsSub "Ctrl-Y" out then [CTRL_Y] else []
    if containsSub "sername" out then
      (ctrlW ++ [username ++ RETURN], false)
    else if containsSub "ssword" out then
      (ctrlW ++ [password ++ RETURN], true)
    else
      (ctrlW, false)

/-- Result of a byte-oriented run: the ordered channel writes, and the
number of loop iterations (equivalently `read_channel` calls) executed. -/
structure SshResult where
  writes : List String
  cycles : Nat
  deriving Repr, DecidableEq

/-- The `while i <= 12` loop, with `fuel` the number of iterations still
allowed by the counter. -/
def sshRun (username password : String) : Nat → List String → SshResult
  | 0, _ => ⟨[], 0⟩
  | fuel + 1, input =>
      let pr := readFrag input
      let cb := sshCycle username password pr.1
      if cb.2 then ⟨cb.1, 1⟩
      else
        let r := sshRun username password fuel pr.2
        ⟨cb.1 ++ r.writes, r.cycles + 1⟩

/-- `ExtremeErsSSH.special_login_handler`: `i` runs from `0` to `12`
inclusive, i.e. at most `13` iterations.  The handler returns `None` in the
source — its observable behaviour is the writes and the iteration count. -/
def special_login_handler (username password : String) (input : List String) : SshResult :=
  sshRun username password 13 input

/-! ### The line-oriented (Telnet) automaton: `ExtremeErsTelnet.telnet_login` -/

/-- One result of `self.read_channel()` on the Telnet channel: a fragment,
or end-of-stream (the read raising `EOFError`). -/
inductive Ev where
  | frag (s : String)
  | eof
  deriving Repr, DecidableEq

/-- Consume the next read event; an exhausted script behaves like the idle
non-blocking channel and keeps yielding empty fragments. -/
def readEv : List Ev → Ev × List Ev
  | [] => (.frag "", [])
  | e :: rest => (e, rest)

/-- Observable action on the underlying connection: a `write_channel` call,
or `remote_conn.close()`. -/
inductive Act where
  | wr (s : String)
  | close
  deriving Repr, DecidableEq

/-- Outcome of `telnet_login`: the returned transcript (`return_msg`), a
raised `NetmikoAuthenticationException` carrying the given message, or an
`EOFError` escaping the post-loop fallback read (which sits outside the
`try` block of the source). -/
inductive TOutcome where
  | ok (transcript : String)
  | authFail (msg : String)
  | uncaughtEOF
  deriving Repr, DecidableEq

/-- Mutable state of the `telnet_login` loop. -/
structure TState where
  sent_user : Bool
  sent_pass : Bool
  return_msg : String
  deriving Repr, DecidableEq

/-- Initial state: `sent_user = False`, `sent_pass = False`,
`return_msg = ""`. -/
def initTState : TState := ⟨false, false, ""⟩

/-- Writes of the `"Ctrl-Y" in output` branch: `self.write_channel(b"\x19\n")`. -/
def ctrlYWrites (out : String) : List String :=
  if containsSub "Ctrl-Y" out then ["\x19\n"] else []

/-- Writes of the menu-bypass branch
(`"Use arrow keys to highlight option" in output`):
`self.write_channel(b"c\n")`. -/
def menuWrites (out : String) : List String :=
  if containsSub "Use arrow keys to highlight option" out then ["c\n"] else []

/-- Writes of the username branch when it fires: a tab (`b"\x09"`), then
`self.username + self.TELNET_RETURN`. -/
def userSubmission (username : String) : List String :=
  ["\x09", username ++ TELNET_RETURN]

/-- Writes of the username branch
(`re.search(username_pattern, output, flags=re.I) and not sent_user`). -/
def userWrites (username : String) (st : TState) (out : String) : List String :=
  if searchUsernamePat out && !st.sent_user then userSubmission username else []

/-- Writes of the password branch
(`re.search(pwd_pattern, output, flags=re.I) and not sent_pass`):
`self.password + self.TELNET_RETURN`. -/
def pwdWrites (password : String) (st : TState) (out : String) : List String :=
  if searchPwdPat out && !st.sent_pass then [password ++ TELNET_RETURN] else []

/-- One iteration of the `while i <= max_loops` body of `telnet_login` on
the fragment `out` just read: the ordered writes of the iteration, the
updated state (transcript appended, `sent_user` / `sent_pass` latched), and
whether the prompt-terminator success test at the end of the body fires. -/
def telnetCycle (username password : String) (st : TState) (out : String) :
    List String × TState × Bool :=
  let ws := ctrlYWrites out ++ menuWrites out ++ userWrites username st out ++
    pwdWrites password st out
  let st' : TState :=
    { sent_user := st.sent_user || searchUsernamePat out
      sent_pass := st.sent_pass || searchPwdPat out
      return_msg := st.return_msg ++ out }
  (ws, st', promptTerminatorMatch out)

/-- Result of a line-oriented run: ordered connection actions (writes and
closes), the number of `read_channel` calls, and the outcome. -/
structure TelnetResult where
  trace : List Act
  reads : Nat
  outcome : TOutcome
  deriving Repr, DecidableEq

/-- Authentication-failure message of the source:
`msg = f"Login failed: {self.host}"`. -/
def loginFailedMsg (host : String) : String := "Login failed: " ++ host

/-- `telnet_login`'s loop and its post-loop fallback, with `fuel` the number
of loop iterations the counter still allows (`i` starts at `1`, so the loop
body runs `max_loops` times).  At `fuel = 0` the fallback runs: write a bare
`TELNET_RETURN`, read once more, append to the transcript, re-check both
terminator patterns; on a match return the transcript, otherwise close the
connection and raise.  An `EOFError` inside a loop iteration closes the
connection and raises; one during the fallback read escapes uncaught. -/
def telnetRun (username password host : String) :
    Nat → TState → List Ev → TelnetResult
  | 0, st, input =>
      match readEv input with
      | (.eof, _) => ⟨[.wr TELNET_RETURN], 1, .uncaughtEOF⟩
      | (.frag out, _) =>
          if promptTerminatorMatch out then
            ⟨[.wr TELNET_RETURN], 1, .ok (st.return_msg ++ out)⟩
          else
            ⟨[.wr TELNET_RETURN, .close], 1, .authFail (loginFailedMsg host)⟩
  | fuel + 1, st, input =>
      match readEv input with
      | (.eof, _) => ⟨[.close], 1, .authFail (loginFailedMsg host)⟩
      | (.frag out, rest) =>
          let c := telnetCycle username password st out
          if c.2.2 then ⟨c.1.map Act.wr, 1, .ok c.2.1.return_msg⟩
          else
            let r := telnetRun username password host fuel c.2.1 rest
            ⟨c.1.map Act.wr ++ r.trace, r.reads + 1, r.outcome⟩

/-- `ExtremeErsTelnet.telnet_login` with the default prompt and credential
patterns, run against the scripted channel `input`. -/
def telnet_login (username password host : String) (max_loops : Nat)
    (input : List Ev) : TelnetResult :=
  telnetRun username password host max_loops initTState input

/-- Number of username submissions in a trace: the tab write `b"\x09"` is
emitted exactly once per firing of the username branch and by no other
`write_channel` call of `telnet_login`. -/
def countTab (tr : List Act) : Nat := tr.count (Act.wr "\x09")

/-- Number of occurrences of the password submission
`self.password + self.TELNET_RETURN` in a trace. -/
def countPwdSend (p : String) (tr : List Act) : Nat :=
  tr.count (Act.wr (p ++ TELNET_RETURN))

/-! ### Basic lemmas about the embedding -/

theorem toList_append (s t : String) : (s ++ t).toList = s.toList ++ t.toList := rfl

theorem listContainsSub_self (p : List Char) : listContainsSub p p = true := by
  cases p with
  | nil => rfl
  | cons c cs => simp [listContainsSub, List.isPrefixOf_iff_prefix]

theorem listContainsSub_append_self (pre p : List Char) :
    listContainsSub p (pre ++ p) = true := by
  induction pre with
  | nil => simpa using listContainsSub_self p
  | cons c cs ih => simp [listContainsSub, ih]

/-- The raised message `"Login failed: " ++ host` contains the host. -/
theorem containsSub_loginFailedMsg (host : String) :
    containsSub host (loginFailedMsg host) = true := by
  unfold containsSub loginFailedMsg
  rw [toList_append]
  exact listContainsSub_append_self _ _

/-! Unfolding equations for `telnetRun` and `sshRun`. -/

theorem telnetRun_zero_nil (u p h : String) (st : TState) :
    telnetRun u p h 0 st [] =
      ⟨[.wr TELNET_RETURN, .close], 1, .authFail (loginFailedMsg h)⟩ := rfl

theorem telnetRun_zero_eof (u p h : String) (st : TState) (rest : List Ev) :
    telnetRun u p h 0 st (Ev.eof :: rest) =
      ⟨[.wr TELNET_RETURN], 1, .uncaughtEOF⟩ := rfl

theorem telnetRun_zero_frag (u p h : String) (st : TState) (out : String) (rest : List Ev) :
    telnetRun u p h 0 st (Ev.frag out :: rest) =
      if promptTerminatorMatch out then
        ⟨[.wr TELNET_RETURN], 1, .ok (st.return_msg ++ out)⟩
      else
        ⟨[.wr TELNET_RETURN, .close], 1, .authFail (loginFailedMsg h)⟩ := rfl

theorem telnetRun_succ_nil (u p h : String) (fuel : Nat) (st : TState) :
    telnetRun u p h (fuel + 1) st [] = telnetRun u p h (fuel + 1) st [Ev.frag ""] := rfl

theorem telnetRun_succ_eof (u p h : String) (fuel : Nat) (st : TState) (rest : List Ev) :
    telnetRun u p h (fuel + 1) st (Ev.eof :: rest) =
      ⟨[.close], 1, .authFail (loginFailedMsg h)⟩ := rfl

theorem telnetRun_succ_frag (u p h : String) (fuel : Nat) (st : TState) (out : String)
    (rest : List Ev) :
    telnetRun u p h (fuel + 1) st (Ev.frag out :: rest) =
      if (telnetCycle u p st out).2.2 then
        ⟨(telnetCycle u p st out).1.map Act.wr, 1, .ok (telnetCycle u p st out).2.1.return_msg⟩
      else
        ⟨(telnetCycle u p st out).1.map Act.wr ++
           (telnetRun u p h fuel (telnetCycle u p st out).2.1 rest).trace,
         (telnetRun u p h fuel (telnetCycle u p st out).2.1 rest).reads + 1,
         (telnetRun u p h fuel (telnetCycle u p st out).2.1 rest).outcome⟩ := rfl

theorem telnetCycle_writes (u p : String) (st : TState) (out : String) :
    (telnetCycle u p st out).1 =
      ctrlYWrites out ++ menuWrites out ++ userWrites u st out ++ pwdWrites p st out := rfl

theorem telnetCycle_state (u p : String) (st : TState) (out : String) :
    (telnetCycle u p st out).2.1 =
      ⟨st.sent_user || searchUsernamePat out, st.sent_pass || searchPwdPat out,
       st.return_msg ++ out⟩ := rfl

theorem telnetCycle_term (u p : String) (st : TState) (out : String) :
    (telnetCycle u p st out).2.2 = promptTerminatorMatch out := rfl

theorem sshRun_zero (u p : String) (input : List String) :
    sshRun u p 0 input = ⟨[], 0⟩ := rfl

theorem sshRun_succ (u p : String) (fuel : Nat) (input : List String) :
    sshRun u p (fuel + 1) input =
      if (sshCycle u p (readFrag input).1).2 then
        ⟨(sshCycle u p (readFrag input).1).1, 1⟩
      else
        ⟨(sshCycle u p (readFrag input).1).1 ++ (sshRun u p fuel (readFrag input).2).writes,
         (sshRun u p fuel (readFrag input).2).cycles + 1⟩ := rfl

/-! ### Loop bounds -/

/-- Every run of the Telnet loop performs at most `fuel + 1` channel reads:
one per remaining loop iteration, plus the single fallback read. -/
theorem telnetRun_reads_le (u p h : String) :
    ∀ (fuel : Nat) (st : TState) (input : List Ev),
      (telnetRun u p h fuel st input).reads ≤ fuel + 1 := by
  intro fuel
  induction fuel with
  | zero =>
      intro st input
      match input with
      | [] => simp [telnetRun_zero_nil]
      | Ev.eof :: rest => simp [telnetRun_zero_eof]
      | Ev.frag out :: rest =>
          rw [telnetRun_zero_frag]
          split <;> simp
  | succ n ih =>
      intro st input
      match input with
      | [] =>
          rw [telnetRun_succ_nil, telnetRun_succ_frag]
          split
          · simp
          · simpa using Nat.succ_le_succ (ih _ [])
      | Ev.eof :: rest => simp [telnetRun_succ_eof]
      | Ev.frag out :: rest =>
          rw [telnetRun_succ_frag]
          split
          · simp
          · simpa using Nat.succ_le_succ (ih _ rest)

/-- Every run of the SSH loop executes at most `fuel` iterations. -/
theorem sshRun_cycles_le (u p : String) :
    ∀ (fuel : Nat) (input : List String),
      (sshRun u p fuel input).cycles ≤ fuel := by
  intro fuel
  induction fuel with
  | zero => intro input; simp [sshRun_zero]
  | succ n ih =>
      intro input
      rw [sshRun_succ]
      split
      · simp
      · simpa using Nat.succ_le_succ (ih (readFrag input).2)

/-- C1: bounded termination — for every input fragment sequence, the
line-oriented (Telnet) login automaton terminates after at most
`max_loops + 1` channel reads (the `max_loops` loop cycles plus the single
post-loop fallback read), and the byte-oriented (SSH) login automaton's loop
executes at most 13 cycles (attempt counter `i` from 0 through 12
inclusive).  Both embeddings are total functions, so termination with a
definite result is inherent. -/
theorem login_bounded_termination (u p h : String) (max_loops : Nat)
    (input : List Ev) (sshInput : List String) :
    (telnet_login u p h max_loops input).reads ≤ max_loops + 1 ∧
    (special_login_handler u p sshInput).cycles ≤ 13 :=
  ⟨telnetRun_reads_le u p h max_loops initTState input,
   sshRun_cycles_le u p 13 sshInput⟩

/-! ### Failure paths of `telnet_login` -/

theorem telnetRun_zero_reads (u p h : String) (st : TState) (input : List Ev) :
    (telnetRun u p h 0 st input).reads = 1 := by
  match input with
  | [] => rw [telnetRun_zero_nil]
  | Ev.eof :: rest => rw [telnetRun_zero_eof]
  | Ev.frag out :: rest => rw [telnetRun_zero_frag]; split <;> rfl

/-- Whenever a run raises `NetmikoAuthenticationException`, the message is
`"Login failed: " ++ host` and the last action on the connection is the
`remote_conn.close()` call — the close precedes the raise. -/
theorem telnetRun_authFail (u p h : String) :
    ∀ (fuel : Nat) (st : TState) (input : List Ev) (msg : String),
      (telnetRun u p h fuel st input).outcome = .authFail msg →
      msg = loginFailedMsg h ∧
      (telnetRun u p h fuel st input).trace.getLast? = some Act.close := by
  intro fuel
  induction fuel with
  | zero =>
      intro st input msg hout
      match input with
      | [] =>
          rw [telnetRun_zero_nil] at hout ⊢
          simp at hout
          exact ⟨hout.symm, rfl⟩
      | Ev.eof :: rest =>
          rw [telnetRun_zero_eof] at hout
          simp at hout
      | Ev.frag out :: rest =>
          rw [telnetRun_zero_frag] at hout ⊢
          cases hm : promptTerminatorMatch out with
          | true => simp [hm] at hout
          | false =>
              simp [hm] at hout ⊢
              exact hout.symm
  | succ n ih =>
      intro st input msg hout
      match input with
      | [] =>
          rw [telnetRun_succ_nil] at hout ⊢
          rw [telnetRun_succ_frag] at hout ⊢
          cases hm : (telnetCycle u p st "").2.2 with
          | true => simp [hm] at hout
          | false =>
              simp only [hm, Bool.false_eq_true, if_false] at hout ⊢
              obtain ⟨h1, h2⟩ := ih _ [] msg hout
              refine ⟨h1, ?_⟩
              have hne : (telnetRun u p h n (telnetCycle u p st "").2.1 []).trace ≠ [] := by
                intro hnil
                rw [hnil] at h2
                simp at h2
              rw [List.getLast?_append_of_ne_nil _ hne]
              exact h2
      | Ev.eof :: rest =>
          rw [telnetRun_succ_eof] at hout ⊢
          simp at hout
          exact ⟨hout.symm, rfl⟩
      | Ev.frag out :: rest =>
          rw [telnetRun_succ_frag] at hout ⊢
          cases hm : (telnetCycle u p st out).2.2 with
          | true => simp [hm] at hout
          | false =>
              simp only [hm, Bool.false_eq_true, if_false] at hout ⊢
              obtain ⟨h1, h2⟩ := ih _ rest msg hout
              refine ⟨h1, ?_⟩
              have hne : (telnetRun u p h n (telnetCycle u p st out).2.1 rest).trace ≠ [] := by
                intro hnil
                rw [hnil] at h2
                simp at h2
              rw [List.getLast?_append_of_ne_nil _ hne]
              exact h2

/-- An end-of-stream read at script position `n` is handled at once: the run
never performs more than `n + 1` channel reads, whatever budget remains. -/
theorem telnetRun_reads_le_of_eof (u p h : String) :
    ∀ (fuel : Nat) (st : TState) (input : List Ev) (n : Nat),
      input[n]? = some Ev.eof →
      (telnetRun u p h fuel st input).reads ≤ n + 1 := by
  intro fuel
  induction fuel with
  | zero =>
      intro st input n _
      rw [telnetRun_zero_reads]
      omega
  | succ k ih =>
      intro st input n hn
      match input with
      | [] => simp at hn
      | Ev.eof :: rest =>
          rw [telnetRun_succ_eof]
          simp
      | Ev.frag out :: rest =>
          match n with
          | 0 => simp at hn
          | m + 1 =>
              simp only [List.getElem?_cons_succ] at hn
              rw [telnetRun_succ_frag]
              cases hm : (telnetCycle u p st out).2.2 with
              | true => simp [hm]
              | false =>
                  simp only [hm, Bool.false_eq_true, if_false]
                  have := ih ((telnetCycle u p st out).2.1) rest m hn
                  simpa using Nat.succ_le_succ this

/-- C2: failure atomicity of the line-oriented automaton — on every failure
path (an `EOFError` during any loop cycle, or the fallback probe not
matching a prompt terminator) `telnet_login` closes the connection and then
raises an `AuthenticationError` whose message contains the target host; the
close is the final connection action before the raise, and an end-of-stream
read at script position `n` fails immediately, with at most `n + 1` reads
ever performed regardless of the remaining loop budget. -/
theorem telnet_failure_atomicity (u p h : String) (max_loops : Nat) (input : List Ev) :
    (∀ msg, (telnet_login u p h max_loops input).outcome = .authFail msg →
        msg = loginFailedMsg h ∧ containsSub h msg = true ∧
        (telnet_login u p h max_loops input).trace.getLast? = some Act.close) ∧
    (∀ n, input[n]? = some Ev.eof →
        (telnet_login u p h max_loops input).reads ≤ n + 1) := by
  constructor
  · intro msg hout
    obtain ⟨h1, h2⟩ := telnetRun_authFail u p h max_loops initTState input msg hout
    refine ⟨h1, ?_, h2⟩
    rw [h1]
    exact containsSub_loginFailedMsg h
  · intro n hn
    exact telnetRun_reads_le_of_eof u p h max_loops initTState input n hn

/-- Witness for C2: an end-of-stream on the very first read of a
20-iteration budget closes the connection, raises with the host in the
message, and stops after a single read. -/
theorem telnet_failure_atomicity_witness :
    ("Login failed: host1" = loginFailedMsg "host1" ∧
      containsSub "host1" "Login failed: host1" = true ∧
      (telnet_login "user" "pass" "host1" 20 [Ev.eof]).trace.getLast? = some Act.close) ∧
    (telnet_login "user" "pass" "host1" 20 [Ev.eof]).reads ≤ 0 + 1 :=
  ⟨(telnet_failure_atomicity "user" "pass" "host1" 20 [Ev.eof]).1 "Login failed: host1"
      (by decide),
   (telnet_failure_atomicity "user" "pass" "host1" 20 [Ev.eof]).2 0 (by decide)⟩

/-! ### Success paths of `telnet_login` -/

/-- C3: success detection — in every cycle of the line-oriented automaton
whose fragment matches the primary prompt-terminator pattern `#\s*$` or the
alternate pattern `>\s*$` under multiline matching, the automaton returns
success on that same cycle (exactly one read), returning the accumulated
transcript, and the remaining trace consists only of that cycle's writes
(all of which precede the terminator check in the loop body) — no further
channel writes happen after the match is detected. -/
theorem telnet_success_detection (u p h : String) (fuel : Nat) (st : TState)
    (out : String) (rest : List Ev) (hm : promptTerminatorMatch out = true) :
    telnetRun u p h (fuel + 1) st (Ev.frag out :: rest) =
      ⟨(telnetCycle u p st out).1.map Act.wr, 1, .ok (st.return_msg ++ out)⟩ := by
  rw [telnetRun_succ_frag]
  simp only [telnetCycle_term, hm, if_true]
  rw [telnetCycle_state]

/-- Witness for C3: a fragment ending in the alternate-free primary
terminator `#` succeeds immediately on a fresh state. -/
theorem telnet_success_detection_witness :
    promptTerminatorMatch "switch#" = true ∧
    telnetRun "user" "pass" "host1" (0 + 1) initTState [Ev.frag "switch#"] =
      ⟨(telnetCycle "user" "pass" initTState "switch#").1.map Act.wr, 1,
        .ok (initTState.return_msg ++ "switch#")⟩ :=
  ⟨by decide,
   telnet_success_detection "user" "pass" "host1" 0 initTState "switch#" [] (by decide)⟩

/-- `remote_conn.close()` appears in a run's trace exactly when the run
raises the authentication error. -/
theorem telnetRun_close_iff (u p h : String) :
    ∀ (fuel : Nat) (st : TState) (input : List Ev),
      Act.close ∈ (telnetRun u p h fuel st input).trace ↔
        (telnetRun u p h fuel st input).outcome = .authFail (loginFailedMsg h) := by
  intro fuel
  induction fuel with
  | zero =>
      intro st input
      match input with
      | [] => rw [telnetRun_zero_nil]; simp
      | Ev.eof :: rest => rw [telnetRun_zero_eof]; simp
      | Ev.frag out :: rest =>
          rw [telnetRun_zero_frag]
          cases hm : promptTerminatorMatch out <;> simp [hm]
  | succ n ih =>
      intro st input
      match input with
      | [] =>
          rw [telnetRun_succ_nil, telnetRun_succ_frag]
          cases hm : (telnetCycle u p st "").2.2 with
          | true => simp [hm]
          | false =>
              simp only [hm, Bool.false_eq_true, if_false]
              simp [List.mem_map, ih ((telnetCycle u p st "").2.1) []]
      | Ev.eof :: rest => rw [telnetRun_succ_eof]; simp
      | Ev.frag out :: rest =>
          rw [telnetRun_succ_frag]
          cases hm : (telnetCycle u p st out).2.2 with
          | true => simp [hm]
          | false =>
              simp only [hm, Bool.false_eq_true, if_false]
              simp [List.mem_map, ih ((telnetCycle u p st out).2.1) rest]

/-- C10: channel preserved on success — on every successful return of the
line-oriented automaton (terminator matched inside the loop or on the
fallback probe) the connection stays open: `remote_conn.close()` never
appears in the trace of a successful run, and conversely a close in the
trace means the run raised the authentication error. -/
theorem telnet_channel_preserved_on_success (u p h : String) (max_loops : Nat)
    (input : List Ev) :
    (∀ t, (telnet_login u p h max_loops input).outcome = .ok t →
        Act.close ∉ (telnet_login u p h max_loops input).trace) ∧
    (Act.close ∈ (telnet_login u p h max_loops input).trace →
        (telnet_login u p h max_loops input).outcome = .authFail (loginFailedMsg h)) := by
  constructor
  · intro t hok hmem
    have h2 : (telnet_login u p h max_loops input).outcome =
        .authFail (loginFailedMsg h) :=
      (telnetRun_close_iff u p h max_loops initTState input).mp hmem
    rw [hok] at h2
    simp at h2
  · exact (telnetRun_close_iff u p h max_loops initTState input).mp

/-- Witness for C10: a run that succeeds on its first fragment has no close
in its trace; a run that hits end-of-stream closes and raises. -/
theorem telnet_channel_preserved_on_success_witness :
    Act.close ∉ (telnet_login "user" "pass" "host1" 20 [Ev.frag "switch#"]).trace ∧
    (telnet_login "user" "pass" "host1" 20 [Ev.eof]).outcome =
      .authFail (loginFailedMsg "host1") :=
  ⟨(telnet_channel_preserved_on_success "user" "pass" "host1" 20 [Ev.frag "switch#"]).1
      "switch#" (by decide),
   (telnet_channel_preserved_on_success "user" "pass" "host1" 20 [Ev.eof]).2 (by decide)⟩

/-! ### Idempotent credential submission -/

theorem toList_ne_nil (p : String) (hp : p ≠ "") : p.toList ≠ [] := by
  intro h0
  exact hp (String.toList_inj.mp (by rw [h0]; rfl))

theorem append_ret_length (s : String) :
    (s ++ TELNET_RETURN).toList.length = s.toList.length + 2 := by
  rw [toList_append, List.length_append]
  rfl

theorem append_ret_ne_short (p t : String) (ht : t.toList.length ≤ 1) :
    p ++ TELNET_RETURN ≠ t := by
  intro hc
  have hl := congrArg (fun s : String => s.toList.length) hc
  simp only at hl
  rw [append_ret_length] at hl
  omega

theorem append_ret_ne_two (p t : String) (hp : p ≠ "") (ht : t.toList.length ≤ 2) :
    p ++ TELNET_RETURN ≠ t := by
  intro hc
  have hl := congrArg (fun s : String => s.toList.length) hc
  simp only at hl
  rw [append_ret_length] at hl
  have h1 : p.toList ≠ [] := toList_ne_nil p hp
  have h2 : 1 ≤ p.toList.length := by
    cases hpp : p.toList with
    | nil => exact absurd hpp h1
    | cons a l => simp
  omega

theorem append_ret_inj (u p : String) (hup : u ≠ p) :
    u ++ TELNET_RETURN ≠ p ++ TELNET_RETURN := by
  intro hc
  apply hup
  have h2 := congrArg String.toList hc
  rw [toList_append, toList_append] at h2
  exact String.toList_inj.mp (List.append_cancel_right h2)

theorem countTab_append (a b : List Act) :
    countTab (a ++ b) = countTab a + countTab b := by
  unfold countTab
  exact List.count_append _ _ _

theorem countPwdSend_append (p : String) (a b : List Act) :
    countPwdSend p (a ++ b) = countPwdSend p a + countPwdSend p b := by
  unfold countPwdSend
  exact List.count_append _ _ _

theorem countTab_ctrlY (out : String) :
    ((ctrlYWrites out).map Act.wr).count (Act.wr "\x09") = 0 := by
  unfold ctrlYWrites
  split <;> decide

theorem countTab_menu (out : String) :
    ((menuWrites out).map Act.wr).count (Act.wr "\x09") = 0 := by
  unfold menuWrites
  split <;> decide

theorem countTab_user (u : String) (st : TState) (out : String) :
    ((userWrites u st out).map Act.wr).count (Act.wr "\x09") =
      if searchUsernamePat out && !st.sent_user then 1 else 0 := by
  unfold userWrites userSubmission
  by_cases hb : (searchUsernamePat out && !st.sent_user) = true
  · simp [hb, List.count_cons, append_ret_ne_short u "\x09" (by decide)]
  · simp [hb]

theorem countTab_pwd (p : String) (st : TState) (out : String) :
    ((pwdWrites p st out).map Act.wr).count (Act.wr "\x09") = 0 := by
  unfold pwdWrites
  split
  · simp [List.count_cons, append_ret_ne_short p "\x09" (by decide)]
  · rfl

/-- One loop iteration writes the tab exactly when the username branch
fires. -/
theorem countTab_cycle (u p : String) (st : TState) (out : String) :
    countTab ((telnetCycle u p st out).1.map Act.wr) =
      if searchUsernamePat out && !st.sent_user then 1 else 0 := by
  rw [telnetCycle_writes]
  unfold countTab
  simp only [List.map_append, List.count_append]
  rw [countTab_ctrlY, countTab_menu, countTab_user, countTab_pwd]
  simp

theorem countPwd_ctrlY (p out : String) (hp : p ≠ "") :
    ((ctrlYWrites out).map Act.wr).count (Act.wr (p ++ TELNET_RETURN)) = 0 := by
  unfold ctrlYWrites
  split
  · simp [List.count_cons, Ne.symm (append_ret_ne_two p "\x19\n" hp (by decide))]
  · rfl

theorem countPwd_menu (p out : String) (hp : p ≠ "") :
    ((menuWrites out).map Act.wr).count (Act.wr (p ++ TELNET_RETURN)) = 0 := by
  unfold menuWrites
  split
  · simp [List.count_cons, Ne.symm (append_ret_ne_two p "c\n" hp (by decide))]
  · rfl

theorem countPwd_user (u p : String) (st : TState) (out : String) (hup : u ≠ p) :
    ((userWrites u st out).map Act.wr).count (Act.wr (p ++ TELNET_RETURN)) = 0 := by
  unfold userWrites userSubmission
  split
  · simp [List.count_cons, Ne.symm (append_ret_ne_short p "\x09" (by decide)),
      append_ret_inj u p hup]
  · rfl

theorem countPwd_pwd (p : String) (st : TState) (out : String) :
    ((pwdWrites p st out).map Act.wr).count (Act.wr (p ++ TELNET_RETURN)) =
      if searchPwdPat out && !st.sent_pass then 1 else 0 := by
  unfold pwdWrites
  by_cases hb : (searchPwdPat out && !st.sent_pass) = true
  · simp [hb, List.count_cons]
  · simp [hb]

/-- One loop iteration writes `password + TELNET_RETURN` exactly when the
password branch fires (for distinct, non-empty credentials the byte string
is not produced by any other write). -/
theorem countPwd_cycle (u p : String) (st : TState) (out : String)
    (hup : u ≠ p) (hp : p ≠ "") :
    countPwdSend p ((telnetCycle u p st out).1.map Act.wr) =
      if searchPwdPat out && !st.sent_pass then 1 else 0 := by
  rw [telnetCycle_writes]
  unfold countPwdSend
  simp only [List.map_append, List.count_append]
  rw [countPwd_ctrlY p out hp, countPwd_menu p out hp, countPwd_user u p st out hup,
    countPwd_pwd]
  simp

theorem countTab_fallback_fail : countTab [Act.wr TELNET_RETURN, Act.close] = 0 := by decide

theorem countTab_fallback_ok : countTab [Act.wr TELNET_RETURN] = 0 := by decide

theorem countTab_eofclose : countTab [Act.close] = 0 := by decide

/-- Once `sent_user` is latched, no later iteration (nor the fallback)
writes the tab again. -/
theorem countTab_run_sent (u p h : String) :
    ∀ (fuel : Nat) (st : TState) (input : List Ev), st.sent_user = true →
      countTab (telnetRun u p h fuel st input).trace = 0 := by
  intro fuel
  induction fuel with
  | zero =>
      intro st input _
      match input with
      | [] => rw [telnetRun_zero_nil]; exact countTab_fallback_fail
      | Ev.eof :: rest => rw [telnetRun_zero_eof]; exact countTab_fallback_ok
      | Ev.frag out :: rest =>
          rw [telnetRun_zero_frag]
          split
          · exact countTab_fallback_ok
          · exact countTab_fallback_fail
  | succ n ih =>
      intro st input hsu
      have hcA : ∀ out, countTab ((telnetCycle u p st out).1.map Act.wr) = 0 := by
        intro out
        rw [countTab_cycle]; simp [hsu]
      have hsuA : ∀ out, ((telnetCycle u p st out).2.1).sent_user = true := by
        intro out
        rw [telnetCycle_state]; simp [hsu]
      match input with
      | [] =>
          rw [telnetRun_succ_nil, telnetRun_succ_frag]
          cases hm : (telnetCycle u p st "").2.2 with
          | true => simpa using hcA ""
          | false =>
              simp only [hm, Bool.false_eq_true, if_false]
              have := ih ((telnetCycle u p st "").2.1) [] (hsuA "")
              simpa [countTab_append, hcA ""] using this
      | Ev.eof :: rest => rw [telnetRun_succ_eof]; exact countTab_eofclose
      | Ev.frag out :: rest =>
          rw [telnetRun_succ_frag]
          cases hm : (telnetCycle u p st out).2.2 with
          | true => simpa using hcA out
          | false =>
              simp only [hm, Bool.false_eq_true, if_false]
              have := ih ((telnetCycle u p st out).2.1) rest (hsuA out)
              simpa [countTab_append, hcA out] using this

/-- From any state, a run writes the tab at most once. -/
theorem countTab_run_le_one (u p h : String) :
    ∀ (fuel : Nat) (st : TState) (input : List Ev),
      countTab (telnetRun u p h fuel st input).trace ≤ 1 := by
  intro fuel
  induction fuel with
  | zero =>
      intro st input
      match input with
      | [] =>
          rw [telnetRun_zero_nil]
          exact le_trans (le_of_eq countTab_fallback_fail) (Nat.zero_le 1)
      | Ev.eof :: rest =>
          rw [telnetRun_zero_eof]
          exact le_trans (le_of_eq countTab_fallback_ok) (Nat.zero_le 1)
      | Ev.frag out :: rest =>
          rw [telnetRun_zero_frag]
          split
          · exact le_trans (le_of_eq countTab_fallback_ok) (Nat.zero_le 1)
          · exact le_trans (le_of_eq countTab_fallback_fail) (Nat.zero_le 1)
  | succ n ih =>
      intro st input
      have key : ∀ (out : String) (rest : List Ev),
          countTab (telnetRun u p h (n + 1) st (Ev.frag out :: rest)).trace ≤ 1 := by
        intro out rest
        rw [telnetRun_succ_frag]
        cases hm : (telnetCycle u p st out).2.2 with
        | true =>
            have := countTab_cycle u p st out
            have hle : countTab ((telnetCycle u p st out).1.map Act.wr) ≤ 1 := by
              rw [this]; split <;> simp
            simpa using hle
        | false =>
            simp only [hm, Bool.false_eq_true, if_false]
            by_cases hb : (searchUsernamePat out && !st.sent_user) = true
            · have hc1 : countTab ((telnetCycle u p st out).1.map Act.wr) = 1 := by
                rw [countTab_cycle, if_pos hb]
              have hsu' : ((telnetCycle u p st out).2.1).sent_user = true := by
                rw [telnetCycle_state]
                have := (Bool.and_eq_true _ _).mp hb
                simp [this.1]
              have h0 := countTab_run_sent u p h n ((telnetCycle u p st out).2.1) rest hsu'
              simp [countTab_append, hc1, h0]
            · have hc0 : countTab ((telnetCycle u p st out).1.map Act.wr) = 0 := by
                rw [countTab_cycle, if_neg hb]
              have := ih ((telnetCycle u p st out).2.1) rest
              simpa [countTab_append, hc0] using this
      match input with
      | [] => rw [telnetRun_succ_nil]; exact key "" []
      | Ev.eof :: rest =>
          rw [telnetRun_succ_eof]
          exact le_trans (le_of_eq countTab_eofclose) (Nat.zero_le 1)
      | Ev.frag out :: rest => exact key out rest

/-- If the very first fragment matches the username prompt, the full run
(from the initial state) writes the tab exactly once, no matter how often
the prompt reappears later. -/
theorem countTab_first_match (u p h : String) (max_loops : Nat) (out : String)
    (rest : List Ev) (hm : searchUsernamePat out = true) :
    countTab (telnet_login u p h (max_loops + 1) (Ev.frag out :: rest)).trace = 1 := by
  unfold telnet_login
  rw [telnetRun_succ_frag]
  have hb : (searchUsernamePat out && !initTState.sent_user) = true := by
    simp [hm, initTState]
  have hc1 : countTab ((telnetCycle u p initTState out).1.map Act.wr) = 1 := by
    rw [countTab_cycle, if_pos hb]
  have hsu' : ((telnetCycle u p initTState out).2.1).sent_user = true := by
    rw [telnetCycle_state]
    simp [hm]
  cases hq : (telnetCycle u p initTState out).2.2 with
  | true => simpa using hc1
  | false =>
      simp only [hq, Bool.false_eq_true, if_false]
      have h0 := countTab_run_sent u p h max_loops ((telnetCycle u p initTState out).2.1)
        rest hsu'
      simp [countTab_append, hc1, h0]

/-- Once `sent_pass` is latched, no later iteration (nor the fallback)
writes `password + TELNET_RETURN` again. -/
theorem countPwd_run_sent (u p h : String) (hup : u ≠ p) (hp : p ≠ "") :
    ∀ (fuel : Nat) (st : TState) (input : List Ev), st.sent_pass = true →
      countPwdSend p (telnetRun u p h fuel st input).trace = 0 := by
  have hret : TELNET_RETURN ≠ p ++ TELNET_RETURN := by
    have hx : (p ++ TELNET_RETURN) ≠ ("" : String) ++ TELNET_RETURN := by
      intro hc
      have h2 := congrArg String.toList hc
      rw [toList_append, toList_append] at h2
      exact hp (String.toList_inj.mp (List.append_cancel_right h2))
    intro hc
    apply hx
    rw [← hc]
    rfl
  intro fuel
  induction fuel with
  | zero =>
      intro st input _
      match input with
      | [] => rw [telnetRun_zero_nil]; simp [countPwdSend, List.count_cons, hret]
      | Ev.eof :: rest => rw [telnetRun_zero_eof]; simp [countPwdSend, List.count_cons, hret]
      | Ev.frag out :: rest =>
          rw [telnetRun_zero_frag]
          split
          · simp [countPwdSend, List.count_cons, hret]
          · simp [countPwdSend, List.count_cons, hret]
  | succ n ih =>
      intro st input hsp
      have hcA : ∀ out, countPwdSend p ((telnetCycle u p st out).1.map Act.wr) = 0 := by
        intro out
        rw [countPwd_cycle u p st out hup hp]
        simp [hsp]
      have hspA : ∀ out, ((telnetCycle u p st out).2.1).sent_pass = true := by
        intro out
        rw [telnetCycle_state]; simp [hsp]
      match input with
      | [] =>
          rw [telnetRun_succ_nil, telnetRun_succ_frag]
          cases hm : (telnetCycle u p st "").2.2 with
          | true => simpa using hcA ""
          | false =>
              simp only [hm, Bool.false_eq_true, if_false]
              have := ih ((telnetCycle u p st "").2.1) [] (hspA "")
              simpa [countPwdSend_append, hcA ""] using this
      | Ev.eof :: rest => rw [telnetRun_succ_eof]; simp [countPwdSend]
      | Ev.frag out :: rest =>
          rw [telnetRun_succ_frag]
          cases hm : (telnetCycle u p st out).2.2 with
          | true => simpa using hcA out
          | false =>
              simp only [hm, Bool.false_eq_true, if_false]
              have := ih ((telnetCycle u p st out).2.1) rest (hspA out)
              simpa [countPwdSend_append, hcA out] using this

/-- From any state, a run writes `password + TELNET_RETURN` at most once. -/
theorem countPwd_run_le_one (u p h : String) (hup : u ≠ p) (hp : p ≠ "") :
    ∀ (fuel : Nat) (st : TState) (input : List Ev),
      countPwdSend p (telnetRun u p h fuel st input).trace ≤ 1 := by
  have hret : TELNET_RETURN ≠ p ++ TELNET_RETURN := by
    have hx : (p ++ TELNET_RETURN) ≠ ("" : String) ++ TELNET_RETURN := by
      intro hc
      have h2 := congrArg String.toList hc
      rw [toList_append, toList_append] at h2
      exact hp (String.toList_inj.mp (List.append_cancel_right h2))
    intro hc
    apply hx
    rw [← hc]
    rfl
  intro fuel
  induction fuel with
  | zero =>
      intro st input
      match input with
      | [] => rw [telnetRun_zero_nil]; simp [countPwdSend, List.count_cons, hret]
      | Ev.eof :: rest => rw [telnetRun_zero_eof]; simp [countPwdSend, List.count_cons, hret]
      | Ev.frag out :: rest =>
          rw [telnetRun_zero_frag]
          split
          · simp [countPwdSend, List.count_cons, hret]
          · simp [countPwdSend, List.count_cons, hret]
  | succ n ih =>
      intro st input
      have key : ∀ (out : String) (rest : List Ev),
          countPwdSend p (telnetRun u p h (n + 1) st (Ev.frag out :: rest)).trace ≤ 1 := by
        intro out rest
        rw [telnetRun_succ_frag]
        cases hm : (telnetCycle u p st out).2.2 with
        | true =>
            have hle : countPwdSend p ((telnetCycle u p st out).1.map Act.wr) ≤ 1 := by
              rw [countPwd_cycle u p st out hup hp]; split <;> simp
            simpa using hle
        | false =>
            simp only [hm, Bool.false_eq_true, if_false]
            by_cases hb : (searchPwdPat out && !st.sent_pass) = true
            · have hc1 : countPwdSend p ((telnetCycle u p st out).1.map Act.wr) = 1 := by
                rw [countPwd_cycle u p st out hup hp, if_pos hb]
              have hsp' : ((telnetCycle u p st out).2.1).sent_pass = true := by
                rw [telnetCycle_state]
                have := (Bool.and_eq_true _ _).mp hb
                simp [this.1]
              have h0 := countPwd_run_sent u p h hup hp n ((telnetCycle u p st out).2.1)
                rest hsp'
              simp [countPwdSend_append, hc1, h0]
            · have hc0 : countPwdSend p ((telnetCycle u p st out).1.map Act.wr) = 0 := by
                rw [countPwd_cycle u p st out hup hp, if_neg hb]
              have := ih ((telnetCycle u p st out).2.1) rest
              simpa [countPwdSend_append, hc0] using this
      match input with
      | [] => rw [telnetRun_succ_nil]; exact key "" []
      | Ev.eof :: rest => rw [telnetRun_succ_eof]; simp [countPwdSend]
      | Ev.frag out :: rest => exact key out rest

/-- The username branch, when it fires, emits exactly the tab and then
`username + TELNET_RETURN`. -/
theorem telnetCycle_user_submission (u p : String) (st : TState) (out : String)
    (hm : searchUsernamePat out = true) (hsu : st.sent_user = false) :
    (telnetCycle u p st out).1 =
      ctrlYWrites out ++ menuWrites out ++ userSubmission u ++ pwdWrites p st out := by
  rw [telnetCycle_writes]
  simp [userWrites, hm, hsu]

/-- C4: idempotent credential submission — over any fragment sequence the
line-oriented automaton writes the tab (the first byte of every username
submission, and of nothing else) at most once, so the username is sent at
most once however often the prompt reappears; when the username branch
fires, its submission is exactly a tab followed by `username +
TELNET_RETURN`; if the first fragment already matches the username prompt,
the whole run submits the username exactly once; and symmetrically (for
distinct non-empty credentials, so that the byte strings are unambiguous)
`password + TELNET_RETURN` is written at most once, guarded by
`sent_pass`. -/
theorem telnet_idempotent_credentials (u p h : String) (max_loops : Nat)
    (input : List Ev) (st : TState) (out : String) (rest : List Ev) :
    countTab (telnet_login u p h max_loops input).trace ≤ 1 ∧
    (searchUsernamePat out = true → st.sent_user = false →
      (telnetCycle u p st out).1 =
        ctrlYWrites out ++ menuWrites out ++ userSubmission u ++ pwdWrites p st out) ∧
    (searchUsernamePat out = true →
      countTab (telnet_login u p h (max_loops + 1) (Ev.frag out :: rest)).trace = 1) ∧
    (u ≠ p → p ≠ "" →
      countPwdSend p (telnet_login u p h max_loops input).trace ≤ 1) := by
  refine ⟨?_, ?_, ?_, ?_⟩
  · exact countTab_run_le_one u p h max_loops initTState input
  · exact telnetCycle_user_submission u p st out
  · exact countTab_first_match u p h max_loops out rest
  · intro hup hp
    exact countPwd_run_le_one u p h hup hp max_loops initTState input

/-- Witness for C4: a single username-prompt fragment with distinct
non-empty credentials. -/
theorem telnet_idempotent_credentials_witness :
    countTab (telnet_login "user" "pass" "host1" 1 [Ev.frag "Enter Username:"]).trace ≤ 1 ∧
    (telnetCycle "user" "pass" initTState "Enter Username:").1 =
      ctrlYWrites "Enter Username:" ++ menuWrites "Enter Username:" ++
        userSubmission "user" ++ pwdWrites "pass" initTState "Enter Username:" ∧
    countTab (telnet_login "user" "pass" "host1" (1 + 1)
      [Ev.frag "Enter Username:"]).trace = 1 ∧
    countPwdSend "pass" (telnet_login "user" "pass" "host1" 1
      [Ev.frag "Enter Username:"]).trace ≤ 1 :=
  ⟨(telnet_idempotent_credentials "user" "pass" "host1" 1 [Ev.frag "Enter Username:"]
      initTState "Enter Username:" []).1,
   (telnet_idempotent_credentials "user" "pass" "host1" 1 [Ev.frag "Enter Username:"]
      initTState "Enter Username:" []).2.1 (by decide) rfl,
   (telnet_idempotent_credentials "user" "pass" "host1" 1 [Ev.frag "Enter Username:"]
      initTState "Enter Username:" []).2.2.1 (by decide),
   (telnet_idempotent_credentials "user" "pass" "host1" 1 [Ev.frag "Enter Username:"]
      initTState "Enter Username:" []).2.2.2 (by decide) (by decide)⟩

/-! ### The byte-oriented automaton's behaviour -/

/-- An iteration whose fragment lacks the `"ssword"` marker never hits the
`break`. -/
theorem sshCycle_no_break (u p out : String)
    (h0 : containsSub "ssword" out = false) :
    (sshCycle u p out).2 = false := by
  simp only [sshCycle, h0]
  split
  · rfl
  · split
    · rfl
    · simp

/-- Without a password prompt anywhere in the script, the SSH loop always
runs its full budget. -/
theorem sshRun_no_pwd_cycles (u p : String) :
    ∀ (fuel : Nat) (input : List String),
      (input.all fun s => !containsSub "ssword" s) = true →
      (sshRun u p fuel input).cycles = fuel := by
  intro fuel
  induction fuel with
  | zero => intro input _; rfl
  | succ n ih =>
      intro input hall
      rw [sshRun_succ]
      match input with
      | [] =>
          have hbrk : (sshCycle u p (readFrag ([] : List String)).1).2 = false :=
            sshCycle_no_break u p "" (by decide)
          simp only [hbrk, Bool.false_eq_true, if_false]
          simp
          exact ih [] rfl
      | s :: rest =>
          simp only [List.all_cons, Bool.and_eq_true] at hall
          have hs : containsSub "ssword" s = false := by
            have h1 := hall.1
            simpa using h1
          have hbrk : (sshCycle u p (readFrag (s :: rest)).1).2 = false :=
            sshCycle_no_break u p s hs
          simp only [hbrk, Bool.false_eq_true, if_false]
          simp
          exact ih rest hall.2

/-- C5: lenient exhaustion of the byte-oriented automaton — when no
fragment of the script contains the password marker `"ssword"`, the loop of
`special_login_handler` runs to full exhaustion (all 13 cycles) and the
handler returns normally: its embedding's result type has no failure
constructor at all, matching the source, which contains no `raise` and
treats loop exhaustion as an ordinary return. -/
theorem ssh_lenient_exhaustion (u p : String) (input : List String)
    (hall : (input.all fun s => !containsSub "ssword" s) = true) :
    (special_login_handler u p input).cycles = 13 :=
  sshRun_no_pwd_cycles u p 13 input hall

/-- Witness for C5: a banner and a username prompt, but no password
prompt. -/
theorem ssh_lenient_exhaustion_witness :
    ((["Enter Ctrl-Y to begin.", "sername:"] : List String).all
        fun s => !containsSub "ssword" s) = true ∧
    (special_login_handler "user" "pass" ["Enter Ctrl-Y to begin.", "sername:"]).cycles
      = 13 :=
  ⟨by decide,
   ssh_lenient_exhaustion "user" "pass" ["Enter Ctrl-Y to begin.", "sername:"] (by decide)⟩

/-- C6: byte-oriented happy path — on the script
`["Enter Ctrl-Y to begin.", "sername:", "ssword:"]` the handler's outbound
writes are exactly the Ctrl-Y control byte, then `username + RETURN`, then
`password + RETURN`, and the loop exits via the `break` on its third
cycle, immediately after the password write. -/
theorem ssh_happy_path (u p : String) :
    special_login_handler u p ["Enter Ctrl-Y to begin.", "sername:", "ssword:"] =
      ⟨[CTRL_Y, u ++ RETURN, p ++ RETURN], 3⟩ := rfl

/-- C9: username/password exclusivity per fragment — when one fragment
contains both `"sername"` and `"ssword"`, only the username (plus `RETURN`)
is written on that cycle, the password write is skipped (the password test
is an `elif` of the username test), and the loop continues into the next
cycle instead of breaking. -/
theorem ssh_user_pwd_exclusive (u p out : String) (fuel : Nat) (rest : List String)
    (h1 : containsSub "sername" out = true) (h2 : containsSub "ssword" out = true) :
    sshCycle u p out =
      ((if containsSub "Ctrl-Y" out then [CTRL_Y] else []) ++ [u ++ RETURN], false) ∧
    (sshRun u p (fuel + 1) (out :: rest)).cycles = (sshRun u p fuel rest).cycles + 1 := by
  have hne : out ≠ "" := by
    intro he
    rw [he] at h1
    exact absurd h1 (by decide)
  have hcy : sshCycle u p out =
      ((if containsSub "Ctrl-Y" out then [CTRL_Y] else []) ++ [u ++ RETURN], false) := by
    simp [sshCycle, hne, h1]
  refine ⟨hcy, ?_⟩
  rw [sshRun_succ]
  have hbrk : (sshCycle u p (readFrag (out :: rest)).1).2 = false := by
    show (sshCycle u p out).2 = false
    rw [hcy]
  simp only [hbrk, Bool.false_eq_true, if_false]
  simp
  rfl

/-- Witness for C9: a fragment carrying both credential markers. -/
theorem ssh_user_pwd_exclusive_witness :
    sshCycle "user" "pass" "sername and ssword" =
      ((if containsSub "Ctrl-Y" "sername and ssword" then [CTRL_Y] else []) ++
        ["user" ++ RETURN], false) ∧
    (sshRun "user" "pass" (0 + 1) ["sername and ssword"]).cycles =
      (sshRun "user" "pass" 0 []).cycles + 1 :=
  ssh_user_pwd_exclusive "user" "pass" "sername and ssword" 0 [] (by decide) (by decide)

/-! ### Menu bypass -/

/-- Counterexample for C7 as stated: on a pure menu fragment the next
outbound write is the literal `b"c\n"` of the source, which is not the
character `c` followed by the Telnet line terminator. -/
theorem telnet_menu_bypass_counterexample :
    (telnet_login "user" "pass" "host1" 1
        [Ev.frag "Use arrow keys to highlight option"]).trace.head? =
      some (Act.wr "c\n") ∧
    "c\n" ≠ "c" ++ TELNET_RETURN := by decide

/-- C7 (amended): menu bypass — in every cycle of the line-oriented
automaton whose fragment contains `"Use arrow keys to highlight option"`,
the cycle writes the literal two-byte string `"c\n"` (the character `c`
followed by a line-feed, not the Telnet line terminator), preceded within
the cycle only by the Ctrl-Y response; in particular when the fragment does
not also contain `"Ctrl-Y"`, the next outbound write after the read is
exactly `"c\n"`. -/
theorem telnet_menu_bypass (u p h : String) (fuel : Nat) (st : TState) (out : String)
    (rest : List Ev)
    (hm : containsSub "Use arrow keys to highlight option" out = true) :
    menuWrites out = ["c\n"] ∧
    (telnetCycle u p st out).1 =
      ctrlYWrites out ++ ["c\n"] ++ userWrites u st out ++ pwdWrites p st out ∧
    (containsSub "Ctrl-Y" out = false →
      (telnetRun u p h (fuel + 1) st (Ev.frag out :: rest)).trace.head? =
        some (Act.wr "c\n")) := by
  have hmw : menuWrites out = ["c\n"] := by
    unfold menuWrites
    rw [if_pos hm]
  refine ⟨hmw, ?_, ?_⟩
  · rw [telnetCycle_writes, hmw]
  · intro hcy
    have hcw : ctrlYWrites out = [] := by
      unfold ctrlYWrites
      rw [if_neg]
      simp [hcy]
    have hws : (telnetCycle u p st out).1 =
        "c\n" :: (userWrites u st out ++ pwdWrites p st out) := by
      rw [telnetCycle_writes, hmw, hcw]
      simp
    rw [telnetRun_succ_frag]
    cases hq : (telnetCycle u p st out).2.2 with
    | true =>
        simp only [hq, if_true]
        simp [hws]
    | false =>
        simp only [hq, Bool.false_eq_true, if_false]
        simp [hws]

/-- Witness for C7 (amended): a pure menu fragment. -/
theorem telnet_menu_bypass_witness :
    menuWrites "Use arrow keys to highlight option" = ["c\n"] ∧
    (telnetCycle "user" "pass" initTState "Use arrow keys to highlight option").1 =
      ctrlYWrites "Use arrow keys to highlight option" ++ ["c\n"] ++
        userWrites "user" initTState "Use arrow keys to highlight option" ++
        pwdWrites "pass" initTState "Use arrow keys to highlight option" ∧
    (telnetRun "user" "pass" "host1" (0 + 1) initTState
        [Ev.frag "Use arrow keys to highlight option"]).trace.head? =
      some (Act.wr "c\n") :=
  ⟨(telnet_menu_bypass "user" "pass" "host1" 0 initTState
      "Use arrow keys to highlight option" [] (by decide)).1,
   (telnet_menu_bypass "user" "pass" "host1" 0 initTState
      "Use arrow keys to highlight option" [] (by decide)).2.1,
   (telnet_menu_bypass "user" "pass" "host1" 0 initTState
      "Use arrow keys to highlight option" [] (by decide)).2.2 (by decide)⟩

/-! ### Post-loop fallback -/

/-- On a script of all-empty loop fragments with a prompt appearing only on
the fallback read, the run succeeds with the fallback fragment as the whole
transcript. -/
theorem telnet_fallback_scenario (u p h : String) :
    ∀ n, telnetRun u p h n initTState
        (List.replicate n (Ev.frag "") ++ [Ev.frag "switch>"]) =
      ⟨[Act.wr TELNET_RETURN], n + 1, .ok "switch>"⟩ := by
  intro n
  induction n with
  | zero =>
      simp only [List.replicate, List.nil_append]
      rw [telnetRun_zero_frag,
        if_pos (by decide : promptTerminatorMatch "switch>" = true)]
      rfl
  | succ k ih =>
      simp only [List.replicate_succ, List.cons_append]
      rw [telnetRun_succ_frag]
      have hq : (telnetCycle u p initTState "").2.2 = false := by
        rw [telnetCycle_term]
        decide
      simp only [hq, Bool.false_eq_true, if_false]
      have hst : (telnetCycle u p initTState "").2.1 = initTState := by
        rw [telnetCycle_state]
        decide
      have e1 : containsSub "Ctrl-Y" "" = false := by decide
      have e2 : containsSub "Use arrow keys to highlight option" "" = false := by decide
      have e3 : searchUsernamePat "" = false := by decide
      have e4 : searchPwdPat "" = false := by decide
      have hws : (telnetCycle u p initTState "").1 = [] := by
        rw [telnetCycle_writes]
        simp [ctrlYWrites, menuWrites, userWrites, pwdWrites, e1, e2, e3, e4]
      rw [hst, ih, hws]
      simp

/-- C8: post-loop fallback — with the loop budget exhausted the automaton
performs exactly one more probe: it writes a bare `TELNET_RETURN`, reads
once, appends the fragment to the transcript, and re-checks both terminator
patterns, succeeding exactly when one matches and otherwise closing and
raising; in particular, when all `max_loops` cycles yield empty fragments
and the fallback read yields `"switch>"`, the result is success with
transcript equal to the concatenation of the empty fragments plus the
fallback fragment. -/
theorem telnet_post_loop_fallback (u p h : String) (st : TState) (out : String)
    (rest : List Ev) (max_loops : Nat) :
    (telnetRun u p h 0 st (Ev.frag out :: rest) =
      if promptTerminatorMatch out then
        ⟨[Act.wr TELNET_RETURN], 1, .ok (st.return_msg ++ out)⟩
      else
        ⟨[Act.wr TELNET_RETURN, Act.close], 1, .authFail (loginFailedMsg h)⟩) ∧
    telnet_login u p h max_loops
        (List.replicate max_loops (Ev.frag "") ++ [Ev.frag "switch>"]) =
      ⟨[Act.wr TELNET_RETURN], max_loops + 1, .ok "switch>"⟩ :=
  ⟨telnetRun_zero_frag u p h st out rest, telnet_fallback_scenario u p h max_loops⟩

end ExtremeErs
